import Mathlib

/-!
Shallow embedding of virtinst/urldetect.py: the distro-detection cache,
the per-family detector validity tests and version-inference heuristics,
and the dispatcher that orders and selects among the detector variants.

Python strings are modelled as Lean `String`, with the Python string
operations implemented by structural recursion over the character list so
that every definition computes. `None` and Python falsiness are made
explicit. Python exceptions are modelled with `Except`/`Option` as noted
at each definition.
-/

/-! ## Python string primitives -/

/-- Boolean list-of-chars version of the prefix test (Python startswith). -/
def isPrefixOfChars : List Char → List Char → Bool
  | [], _ => true
  | _ :: _, [] => false
  | a :: as, b :: bs => a == b && isPrefixOfChars as bs

/-- Substring containment over char lists (Python `pat in hay`). -/
def containsChars (hay pat : List Char) : Bool :=
  match hay with
  | [] => pat.isEmpty
  | _ :: t => isPrefixOfChars pat hay || containsChars t pat

/-- Python `pat in s` (substring containment). -/
def strContains (s pat : String) : Bool := containsChars s.data pat.data

/-- Python `s.startswith(pat)`. -/
def strStartsWith (s pat : String) : Bool := isPrefixOfChars pat.data s.data

/-- Python `s.endswith(pat)`. -/
def strEndsWith (s pat : String) : Bool :=
  isPrefixOfChars pat.data.reverse s.data.reverse

/-- Split at the first occurrence of a separator char: Python
`s.split(c, 1)`, returning the part before and, when the separator
occurs, the part after. -/
def splitFirstAux (c : Char) : List Char → List Char × Option (List Char)
  | [] => ([], none)
  | x :: t =>
    if x == c then ([], some t)
    else
      let r := splitFirstAux c t
      (x :: r.1, r.2)

/-- Split at the last occurrence of a separator char: Python
`s.rsplit(c, 1)` when the separator occurs (`none` otherwise). -/
def splitLastAux (c : Char) (l : List Char) : Option (List Char × List Char) :=
  match splitFirstAux c l.reverse with
  | (_, none) => none
  | (aft, some bef) => some (bef.reverse, aft.reverse)

/-- Split on every position where the predicate holds, keeping empty
pieces (Python `s.split(c)` for a one-char separator). -/
def splitCharsP (p : Char → Bool) : List Char → List (List Char)
  | [] => [[]]
  | x :: t =>
    if p x then [] :: splitCharsP p t
    else
      match splitCharsP p t with
      | [] => [[x]]
      | h :: r => (x :: h) :: r

/-- Python `s.split(c)` for a single-char separator (keeps empty parts). -/
def splitChars (c : Char) (l : List Char) : List (List Char) :=
  splitCharsP (· == c) l

/-- Python `s.strip()`. -/
def trimChars (l : List Char) : List Char :=
  ((l.dropWhile Char.isWhitespace).reverse.dropWhile Char.isWhitespace).reverse

/-- Python `s.strip()` on `String`. -/
def strTrim (s : String) : String := ⟨trimChars s.data⟩

/-- Python `s.split()`: split on whitespace, dropping empty pieces. -/
def pySplitWs (s : String) : List String :=
  ((splitCharsP Char.isWhitespace s.data).filter (fun l => !l.isEmpty)).map
    (fun l => ⟨l⟩)

/-- Python `s.split(c)` on `String`. -/
def strSplitChar (c : Char) (s : String) : List String :=
  (splitChars c s.data).map (fun l => ⟨l⟩)

/-- Python `s.splitlines()`, modelled as splitting on the newline char. -/
def pySplitlines (s : String) : List String := strSplitChar '\n' s

/-- Python `s.lower()` (ASCII case folding). -/
def strLower (s : String) : String := ⟨s.data.map Char.toLower⟩

/-- Python `s.capitalize()`: first char upper-cased, rest lower-cased. -/
def pyCapitalize (s : String) : String :=
  match s.data with
  | [] => ""
  | c :: t => ⟨c.toUpper :: t.map Char.toLower⟩

/-- Parse a non-empty all-digit char list as a natural number. -/
def digitsToNat? (l : List Char) : Option Nat :=
  if l.isEmpty then none
  else if l.all Char.isDigit then
    some (l.foldl (fun a c => a * 10 + (c.toNat - 48)) 0)
  else none

/-- Python `int(s)`: optional surrounding whitespace, optional sign,
then decimal digits; `none` models the `ValueError`. -/
def parseIntPy (s : String) : Option Int :=
  match trimChars s.data with
  | '-' :: rest => (digitsToNat? rest).map (fun n => -(n : Int))
  | '+' :: rest => (digitsToNat? rest).map (fun n => (n : Int))
  | l => (digitsToNat? l).map (fun n => (n : Int))

/-- Python `s.isdigit()` (ASCII digits). -/
def pyIsdigit (s : String) : Bool := !s.data.isEmpty && s.data.all Char.isDigit

/-- Value of an all-digit string (used after an `isdigit` check). -/
def parseNatDigits (s : String) : Nat := (digitsToNat? s.data).getD 0

/-- Python truthiness of an optional string (`None` and `""` are falsy). -/
def truthyStr : Option String → Bool
  | none => false
  | some s => !(s == "")

/-- Python `a or b` on optional strings with string truthiness. -/
def pyOrStr (a b : Option String) : Option String :=
  if truthyStr a then a else b

/-- View of `Except` as a sum, for deciding equalities of results. -/
def exceptToSum {ε α : Type} : Except ε α → Sum ε α
  | .error e => .inl e
  | .ok a => .inr a

instance {ε α : Type} [DecidableEq ε] [DecidableEq α] :
    DecidableEq (Except ε α) := fun a b =>
  decidable_of_iff (exceptToSum a = exceptToSum b)
    (by cases a <;> cases b <;> simp [exceptToSum])

/-! ## _DistroCache: memoized file fetching (urldetect.py lines 20-41) -/

/-- The external fetch collaborator. `acquire p = none` models
`acquireFileContent` raising the not-found `ValueError`. -/
structure Fetcher where
  acquire : String → Option String

/-- State of `_DistroCache`: the memo table (`_filecache`, storing
failure as `none`), plus a log of the paths actually forwarded to the
collaborator, used to state the at-most-one-fetch property. -/
structure CacheState where
  filecache : List (String × Option String)
  fetchLog : List String

/-- Lookup in the memo table (Python `path in self._filecache`). -/
def lookupCache : List (String × Option String) → String → Option (Option String)
  | [], _ => none
  | (q, v) :: t, p => if q == p then some v else lookupCache t p

/-- Model of `_DistroCache.acquire_file_content`: on a miss, delegate to the
collaborator, catching its not-found error as `none`, and memoize the
result; on a hit, return the memoized value and do not re-fetch. -/
def acquireFileContent (f : Fetcher) (st : CacheState) (p : String) :
    Option String × CacheState :=
  match lookupCache st.filecache p with
  | some v => (v, st)
  | none =>
    let content := f.acquire p
    (content, ⟨(p, content) :: st.filecache, st.fetchLog ++ [p]⟩)

/-- The cache a detection session starts from. -/
def emptyCache : CacheState := ⟨[], []⟩

/-- Run `n` successive `acquire_file_content` queries for one path,
collecting the returned values. -/
def iterQuery (f : Fetcher) (st : CacheState) (p : String) :
    Nat → List (Option String) × CacheState
  | 0 => ([], st)
  | n + 1 =>
    let r := acquireFileContent f st p
    let rest := iterQuery f r.2 p n
    (r.1 :: rest.1, rest.2)

/-! ## Tree descriptor (.treeinfo) handling (urldetect.py lines 43-90) -/

/-- A parsed ini file: sections of key/value pairs (the output of the
external `configparser` collaborator). -/
def IniSections : Type := List (String × List (String × String))

/-- Lookup of `ini.get(sec, key)`; `none` models the lookup error. -/
def iniGet (ini : IniSections) (sec key : String) : Option String :=
  match List.lookup sec ini with
  | none => none
  | some kvs => List.lookup key kvs

/-- The data `_DistroCache` keeps from a parsed tree descriptor:
`treeinfo_family` (required) and `treeinfo_version` (optional). -/
structure TreeinfoData where
  family : String
  version : Option String
deriving DecidableEq

/-- Model of `_DistroCache.treeinfo`: absent content (transport miss) yields
`none`; fetched-but-unparsable content or a missing `general/family`
raises, modelled as `.error`. `parse` is the external configparser
(`none` models its parse exception). -/
def treeinfoCompute (parse : String → Option IniSections)
    (content : Option String) : Except String (Option TreeinfoData) :=
  match content with
  | none => .ok none
  | some s =>
    match parse s with
    | none => .error "treeinfo parse error"
    | some ini =>
      match iniGet ini "general" "family" with
      | none => .error "treeinfo missing family"
      | some fam => .ok (some ⟨fam, iniGet ini "general" "version"⟩)

/-- Model of `_DistroCache.treeinfo_family_regex`: `False` when there is no
descriptor, otherwise the family test applied to `treeinfo_family`;
parse errors propagate. -/
def treeinfoFamilyRegex (parse : String → Option IniSections)
    (content : Option String) (famtest : String → Bool) : Except String Bool :=
  match treeinfoCompute parse content with
  | .error e => .error e
  | .ok none => .ok false
  | .ok (some t) => .ok (famtest t.family)

/-- Model of `_DistroCache.content_regex`: fetch a file and test each line;
`False` on a transport miss. -/
def contentRegexLines (f : String → Option String) (path : String)
    (test : String → Bool) : Bool :=
  match f path with
  | none => false
  | some c => (pySplitlines c).any test

/-! ## The registered distro store classes -/

/-- The concrete `Distro` subclasses with a `PRETTY_NAME` (the ones
`_build_distro_list` collects). `suse` is the `SuseDistro` base class,
which carries `PRETTY_NAME = "SUSE"` and so is registered too. -/
inductive Store where
  | generic | fedora | rhel | centos | suse | sles | sled | opensuse
  | debian | ubuntu | altlinux | mandriva
deriving DecidableEq

/-- The `urldistro` class attribute of each registered store. -/
def Store.urldistro : Store → Option String
  | .generic => none
  | .fedora => some "fedora"
  | .rhel => some "rhel"
  | .centos => some "centos"
  | .suse => none
  | .sles => some "sles"
  | .sled => some "sled"
  | .opensuse => some "opensuse"
  | .debian => some "debian"
  | .ubuntu => some "ubuntu"
  | .altlinux => some "altlinux"
  | .mandriva => some "mandriva"

/-- The stores in the order `globals()` enumerates the class
definitions in urldetect.py (Python 3.7+ dict order = definition
order). -/
def registrationOrder : List Store :=
  [.generic, .fedora, .rhel, .centos, .suse, .sles, .sled, .opensuse,
   .debian, .ubuntu, .altlinux, .mandriva]

/-- Python `list.remove`: drop the first occurrence of an element. -/
def removeFirst (s : Store) : List Store → List Store
  | [] => []
  | x :: t => if x = s then t else x :: removeFirst s t

/-- The duplicate-`urldistro` startup check of `_build_distro_list`:
walk the list keeping the seen identifiers, raising on a repeated
non-absent one (`None` values are appended but never trigger). -/
def checkDups : List Store → List (Option String) → Except String Unit
  | [], _ => .ok ()
  | s :: rest, seen =>
    match s.urldistro with
    | some d =>
      if some d ∈ seen then .error ("programming error: duplicate urldistro=" ++ d)
      else checkDups rest (seen ++ [some d])
    | none => checkDups rest (seen ++ [none])

/-- Model of `_build_distro_list`: duplicate check, then move the generic
treeinfo catchall to the end (`list.remove` raising when absent is
modelled as an error). -/
def buildDistroList (l : List Store) : Except String (List Store) :=
  match checkDups l [] with
  | .error e => .error e
  | .ok _ =>
    if Store.generic ∈ l then .ok (removeFirst .generic l ++ [.generic])
    else .error "remove: GenericTreeinfoDistro not in list"

/-- Value of `_allstores`, the result of `_build_distro_list()` at import time. -/
def allstores : List Store :=
  [.fedora, .rhel, .centos, .suse, .sles, .sled, .opensuse,
   .debian, .ubuntu, .altlinux, .mandriva, .generic]

/-! ## The dispatcher getDistroStore (urldetect.py lines 196-245) -/

/-- The `found_store` loop of `getDistroStore`: the last store whose
`urldistro` equals the hint. -/
def findLastMatch (d : String) (stores : List Store) : Option Store :=
  stores.foldl (fun acc s => if s.urldistro == some d then some s else acc) none

/-- The hint-prioritization step: with a truthy hint matching a
registered `urldistro`, move that store to the front (remove + insert
at 0); otherwise leave the order unchanged. -/
def prioritizeStores (urldistro : Option String) (stores : List Store) :
    List Store :=
  match urldistro with
  | none => stores
  | some d =>
    if d == "" then stores
    else
      match findLastMatch d stores with
      | none => stores
      | some s => s :: removeFirst s stores

/-- The selection loop of `getDistroStore`: evaluate each store's
validity test in order and return the first match; an exception in a
validity test propagates. `.ok none` models reaching the final
"Could not find an installable distribution" error. -/
def getDistroStoreLoop (valid : Store → Except String Bool) :
    List Store → Except String (Option Store)
  | [] => .ok none
  | s :: rest =>
    match valid s with
    | .error e => .error e
    | .ok true => .ok (some s)
    | .ok false => getDistroStoreLoop valid rest

/-- Model of `getDistroStore`, abstracted over the per-store validity outcome:
prioritize by the (possibly absent) `urldistro` hint, then take the
first valid store. -/
def getDistroStore (urldistro : Option String)
    (valid : Store → Except String Bool) : Except String (Option Store) :=
  getDistroStoreLoop valid (prioritizeStores urldistro allstores)

/-! ## FedoraDistro version inference (urldetect.py lines 396-435) -/

/-- The family regex `.*Fedora.*` of `FedoraDistro.is_valid`. -/
def famregexFedora (s : String) : Bool := strContains s "Fedora"

/-- Model of `FedoraDistro._parse_fedora_version`, abstracted over the OS
catalog: `latestN` is the integer of `OSDB.latest_fedora_version()`
(guaranteed by the catalog to match `fedoraXX`). Returns
`(_version_number, os_variant)`. -/
def parseFedoraVersion (latestN : Nat) (verstr0 : Option String) :
    Nat × String :=
  let latestVariant := "fedora" ++ toString latestN
  let verstr := match verstr0 with
    | none => "rawhide"
    | some s => if s == "" then "rawhide" else s
  if verstr == "development" || verstr == "rawhide" || verstr == "Rawhide" then
    (latestN, latestVariant)
  else
    let verint := if pyIsdigit verstr then parseNatDigits verstr else latestN
    if latestN < verint then (verint, latestVariant)
    else (verint, "fedora" ++ toString verint)

/-! ## RHELDistro/CentOSDistro version inference (lines 438-499) -/

/-- Model of `_safeint`: Python `int(c)` with any exception mapped to 0. -/
def safeint (s : String) : Int := (parseIntPy s).getD 0

/-- Model of `RHELDistro._split_rhel_version`: when the version string contains
exactly one dot, parse the two parts; otherwise parse the whole string
as the version with update 0. Returns `(version, update)`. -/
def splitRhelVersion (verstr : String) : Int × Int :=
  let version := safeint verstr
  if (verstr.data.count '.') == 1 then
    (safeint ⟨(splitFirstAux '.' verstr.data).1⟩,
     safeint ⟨((splitFirstAux '.' verstr.data).2.getD [])⟩)
  else (version, 0)

/-- The backward walk of `RHELDistro._detect_version`: try
`base.update`, `base.(update-1)`, ... down to `base.0`, returning the
first identifier the catalog validates. -/
def rhelWalk (catalog : String → Bool) (base : String) : Nat → Option String
  | 0 =>
    if catalog (base ++ "." ++ toString (0 : Nat)) then
      some (base ++ "." ++ toString (0 : Nat))
    else none
  | u + 1 =>
    if catalog (base ++ "." ++ toString (u + 1)) then
      some (base ++ "." ++ toString (u + 1))
    else rhelWalk catalog base u

/-- Model of `RHELDistro._detect_version`: nothing is set without a truthy
`treeinfo_version`; otherwise split the version and walk the update
component backwards through the catalog. `variantPre` is the
`_variant_prefix` class attribute (`"rhel"` or `"centos"`). Returns the
resolved `os_variant`. -/
def detectVersionRhel (catalog : String → Bool) (variantPre : String)
    (verstr : Option String) : Option String :=
  match verstr with
  | none => none
  | some vs =>
    if vs == "" then none
    else
      let vu := splitRhelVersion vs
      let base := variantPre ++ toString vu.1
      if vu.2 < 0 then none
      else rhelWalk catalog base vu.2.toNat

/-- Modelled from the spec: the claimed split rule "split the
descriptor version on the first dot into (major, minor) integers
(non-numeric defaults to 0)" — split at the FIRST dot whether or not
more dots follow. Used only to compare the spec's words with
`splitRhelVersion`. -/
def specSplitRhelVersion (verstr : String) : Int × Int :=
  match splitFirstAux '.' verstr.data with
  | (a, none) => (safeint ⟨a⟩, 0)
  | (a, some b) => (safeint ⟨a⟩, safeint ⟨b⟩)

/-- Modelled from the spec: RHEL detection using the spec's split rule,
with the same backward walk as the code. -/
def specDetectVersionRhel (catalog : String → Bool) (variantPre : String)
    (verstr : Option String) : Option String :=
  match verstr with
  | none => none
  | some vs =>
    if vs == "" then none
    else
      let vu := specSplitRhelVersion vs
      let base := variantPre ++ toString vu.1
      if vu.2 < 0 then none
      else rhelWalk catalog base vu.2.toNat

/-! ## _SUSEContent (urldetect.py lines 93-193) -/

/-- Model of `_SUSEContent.content_dict`: the six recognized line prefixes. -/
structure ContentDict where
  LABEL : Option String
  DISTRO : Option String
  VERSION : Option String
  BASEARCHS : Option String
  DEFAULTBASE : Option String
  REPOID : Option String
deriving DecidableEq

/-- The empty content dict. -/
def ContentDict.empty : ContentDict := ⟨none, none, none, none, none, none⟩

/-- Value of a `PREFIX value` line: everything after the first space. -/
def afterFirstSpace (s : String) : String :=
  ⟨(splitFirstAux ' ' s.data).2.getD []⟩

/-- One line of the `_SUSEContent.__init__` loop: record the value for
whichever recognized prefix the line starts with. -/
def updateContentDict (cd : ContentDict) (line : String) : ContentDict :=
  if strStartsWith line "LABEL " then { cd with LABEL := some (afterFirstSpace line) }
  else if strStartsWith line "DISTRO " then { cd with DISTRO := some (afterFirstSpace line) }
  else if strStartsWith line "VERSION " then { cd with VERSION := some (afterFirstSpace line) }
  else if strStartsWith line "BASEARCHS " then { cd with BASEARCHS := some (afterFirstSpace line) }
  else if strStartsWith line "DEFAULTBASE " then { cd with DEFAULTBASE := some (afterFirstSpace line) }
  else if strStartsWith line "REPOID " then { cd with REPOID := some (afterFirstSpace line) }
  else cd

/-- The full `content_dict` of a SUSE content file. -/
def buildContentDict (content : String) : ContentDict :=
  (pySplitlines content).foldl updateContentDict ContentDict.empty

/-- Model of `_SUSEContent._get_tree_arch`; `.error` models the uncaught
`IndexError` on a slash-free `REPOID`. -/
def getTreeArch (cd : ContentDict) : Except Unit (Option String) :=
  let da := pyOrStr cd.BASEARCHS cd.DEFAULTBASE
  let da2 : Except Unit (Option String) :=
    if !truthyStr da then
      match cd.REPOID with
      | some r =>
        match splitLastAux '/' r.data with
        | some (_, aft) => .ok (some ⟨aft⟩)
        | none => .error ()
      | none => .ok da
    else .ok da
  match da2 with
  | .error e => .error e
  | .ok d =>
    if !truthyStr d then .ok none
    else
      let ta := strTrim (d.getD "")
      if strContains ta "i586-x86_64" then .ok (some "x86_64")
      else .ok (some ta)

/-- Model of `_SUSEContent._get_product_name`: `LABEL` if present, else the part
of `DISTRO` after the last comma when `DISTRO` contains a comma. -/
def getProductName (cd : ContentDict) : Option String :=
  match cd.LABEL with
  | some l => some l
  | none =>
    match cd.DISTRO with
    | some d =>
      match splitLastAux ',' d.data with
      | some (_, aft) => some ⟨aft⟩
      | none => none
    | none => none

/-- The regex `^.*:.*,openSUSE$` of `_get_product_version`: ends with
`,openSUSE` and has a colon before that suffix (equivalently anywhere,
since the suffix has none). -/
def matchCpeOpensuse (d : String) : Bool :=
  strEndsWith d ",openSUSE" && strContains d ":"

/-- The part of `_get_product_version` before the Enterprise/SLES
override: `VERSION` truncated at the first hyphen, then the
CPE-style `DISTRO` extraction when that is still falsy. `.error`
models the uncaught `KeyError`/`IndexError`. -/
def getProductVersionPre (cd : ContentDict) : Except Unit String :=
  let dv0 := cd.VERSION.getD ""
  let dv := if strContains dv0 "-" then ⟨(splitFirstAux '-' dv0.data).1⟩ else dv0
  if dv == "" then
    match cd.DISTRO with
    | none => .error ()
    | some dstr =>
      if matchCpeOpensuse dstr then
        match splitLastAux ',' dstr.data with
        | none => .error ()
        | some (bef, _) =>
          match (splitChars ':' (trimChars bef)).get? 4 with
          | none => .error ()
          | some p => .ok ⟨p⟩
      else .ok dv
  else .ok dv

/-- Model of `_SUSEContent._get_product_version`: `none` when there is no truthy
product name; otherwise the pre-override version, re-derived from the
5th (and optionally 6th) space-delimited token of the product name when
it contains "Enterprise" or "SLES". `.error` models the uncaught
exceptions. -/
def getProductVersion (cd : ContentDict) : Except Unit (Option String) :=
  match getProductName cd with
  | none => .ok none
  | some pn =>
    if pn == "" then .ok none
    else
      match getProductVersionPre cd with
      | .error e => .error e
      | .ok dv =>
        if strContains pn "Enterprise" || strContains pn "SLES" then
          let toks := splitChars ' ' (trimChars pn.data)
          match toks.get? 4 with
          | none => .error ()
          | some t5 =>
            if 5 < toks.length then
              match (toks.get? 5).bind (fun t6 => t6.get? 2) with
              | none => .error ()
              | some c => .ok (some (⟨t5⟩ ++ "." ++ String.singleton c))
            else .ok (some ⟨t5⟩)
        else .ok (some dv)

/-- The `_SUSEContent` fields this model tracks. -/
structure SuseContentData where
  treeArch : Option String
  productName : Option String
  productVersion : Option String
deriving DecidableEq

/-- The `_SUSEContent` constructor: build the dict and derive the
arch, product name and product version; `.error` models any exception
(which `SuseDistro.is_valid` catches, treating the file as invalid). -/
def suseContentBuild (content : String) : Except Unit SuseContentData :=
  let cd := buildContentDict content
  match getTreeArch cd with
  | .error e => .error e
  | .ok ta =>
    match getProductVersion cd with
    | .error e => .error e
    | .ok pv => .ok ⟨ta, getProductName cd, pv⟩

/-! ## SuseDistro version inference (urldetect.py lines 569-604) -/

/-- Model of `SuseDistro._variantFromVersion`, as a function from the variant's
`urldistro` and the manifest's `product_version` to the `os_variant` it
sets (`.ok none` = left unset, `.error` = `int()` raised). -/
def variantFromVersion (urldistro : String) (productVersion : Option String) :
    Except Unit (Option String) :=
  match productVersion with
  | none => .ok none
  | some dv =>
    if dv == "" then .ok none
    else
      let version := strTrim ⟨(splitFirstAux '.' dv.data).1⟩
      match parseIntPy version with
      | none => .error ()
      | some vi =>
        if 10 ≤ vi then
          if strStartsWith urldistro "sles" || strStartsWith urldistro "sled" then
            let sp := match (splitFirstAux '.' dv.data).2 with
              | some rest => some ("sp" ++ strTrim ⟨rest⟩)
              | none => none
            .ok (some (urldistro ++ version ++ sp.getD ""))
          else if version.data.length == 8 then .ok (some (urldistro ++ "tumbleweed"))
          else .ok (some (urldistro ++ dv))
        else .ok (some (urldistro ++ "9"))

/-! ## DebianDistro/UbuntuDistro validity and osdict resolution
    (urldetect.py lines 622-768) -/

/-- A line matching `.*[Uu]buntu.*`. -/
def lineHasUbuntu (l : String) : Bool :=
  strContains l "Ubuntu" || strContains l "ubuntu"

/-- A line matching `.*[Dd]ebian.*`. -/
def lineHasDebian (l : String) : Bool :=
  strContains l "Debian" || strContains l "debian"

/-- The `check_manifest` closure of `DebianDistro.is_valid`: an
Ubuntu-wording manifest satisfies exactly the Ubuntu variant; otherwise
fall back to the Debian wording test. `f` is the memoized
file-content view (`acquire_file_content`). -/
def checkManifest (debname : String) (f : String → Option String)
    (mfile : String) : Bool :=
  let isUbuntu := debname == "ubuntu"
  if contentRegexLines f mfile lineHasUbuntu then isUbuntu
  else contentRegexLines f mfile lineHasDebian

/-- The media type `DebianDistro.is_valid` resolves (and caches):
"url", "daily", "disk", or `none` when the variant is invalid. -/
def debianMediaType (debname : String) (f : String → Option String) :
    Option String :=
  if checkManifest debname f "current/images/MANIFEST" then some "url"
  else if checkManifest debname f "daily/MANIFEST" then some "daily"
  else if contentRegexLines f ".disk/info"
      (fun l => strStartsWith l (pyCapitalize debname)) then some "disk"
  else none

/-- Model of `DebianDistro.is_valid` (`UbuntuDistro` passes `debname =
"ubuntu"`). -/
def debianIsValid (debname : String) (f : String → Option String) : Bool :=
  (debianMediaType debname f).isSome

/-- An entry of the external OS catalog (`OSDB.list_os()` order is the
catalog's, consumed as-is). `codename = none` models a `None`
codename. -/
structure OsEntry where
  name : String
  codename : Option String
  label : String
deriving DecidableEq

/-- The codename token the Debian URL scan uses for one catalog entry:
the first whitespace token of the codename (case-folded) when the
codename is truthy, else the second whitespace token of the label
(case-folded) when the label contains a space, else skip (`ok none`).
`.error` models the uncaught `IndexError` on malformed entries. -/
def debianEntryToken (e : OsEntry) : Except Unit (Option String) :=
  if truthyStr e.codename then
    match pySplitWs (e.codename.getD "") with
    | [] => .error ()
    | t :: _ => .ok (some (strLower t))
  else if strContains e.label " " then
    match pySplitWs e.label with
    | _ :: t :: _ => .ok (some (strLower t))
    | _ => .error ()
  else .ok none

/-- The scan loop of `_detect_debian_osdict_from_url`: first entry
whose token occurs as a `/token/` segment of the tree URL. -/
def debianScanOses (uri : String) : List OsEntry → Except Unit (Option String)
  | [] => .ok none
  | e :: rest =>
    match debianEntryToken e with
    | .error x => .error x
    | .ok none => debianScanOses uri rest
    | .ok (some c) =>
      if strContains uri ("/" ++ c ++ "/") then .ok (some e.name)
      else debianScanOses uri rest

/-- The catalog entries whose identifier starts with the distro family
name (`oses` in `_detect_debian_osdict_from_url`). -/
def debianFilteredOses (debname : String) (catalog : List OsEntry) :
    List OsEntry :=
  catalog.filter (fun e => strStartsWith e.name debname)

/-- Model of `DebianDistro._detect_debian_osdict_from_url`: for the "daily"
URL prefix always the first matching catalog entry (`oses[0]`,
`.error` = `IndexError` on an empty catalog); otherwise the URL
codename scan, `none` when nothing matches (`self.os_variant` is still
unset at the call site). -/
def detectDebianOsdictFromUrl (debname : String) (catalog : List OsEntry)
    (uri : String) (urlPre : String) : Except Unit (Option String) :=
  let oses := debianFilteredOses debname catalog
  if urlPre == "daily" then
    match oses with
    | [] => .error ()
    | e :: _ => .ok (some e.name)
  else debianScanOses uri oses

/-- The `os_variant` resolution step of `DebianDistro.__init__`: only
"url" and "daily" media resolve an os_variant, with the URL prefix
chosen by media type. -/
def debianInitOsVariant (debname : String) (catalog : List OsEntry)
    (uri : String) (mediaType : String) : Except Unit (Option String) :=
  if mediaType == "url" || mediaType == "daily" then
    let urlPre := if mediaType == "daily" then "daily" else "current/images"
    detectDebianOsdictFromUrl debname catalog uri urlPre
  else .ok none

/-! ## Distro.acquireKernel and kernel URL arguments
    (urldetect.py lines 278-302, 329-334, 380-393, 603-604) -/

/-- The `_is_old_rhdistro` test inside
`GenericTreeinfoDistro._get_kernel_url_arg` (`_version_number` falsy —
`None` or 0 — means not old). -/
def isOldRhdistro (urldistro : Option String) (versionNumber : Option Int) :
    Bool :=
  match versionNumber with
  | none => false
  | some v =>
    if v == 0 then false
    else if urldistro == some "fedora" && v < 19 then true
    else v < 7

/-- Model of `_get_kernel_url_arg` per store: treeinfo stores pick the legacy or
modern argument by version, SUSE stores use "install", the rest have
none (the `Distro` base default). -/
def getKernelUrlArg (s : Store) (versionNumber : Option Int) : Option String :=
  match s with
  | .generic | .fedora | .rhel | .centos =>
    some (if isOldRhdistro s.urldistro versionNumber then "method" else "inst.repo")
  | .suse | .sles | .sled | .opensuse => some "install"
  | .debian | .ubuntu | .altlinux | .mandriva => none

/-- The kernel-argument string `acquireKernel` builds: empty unless the
location is non-local and the variant defines a truthy kernel URL
argument name. -/
def kernelArgsFor (uri : String) (urlArg : Option String) : String :=
  if !strStartsWith uri "/" && truthyStr urlArg then
    (urlArg.getD "") ++ "=" ++ uri
  else ""

/-- Model of `Distro.acquireKernel`, abstracted over the transport: find the
first kernel/initrd candidate pair whose two files exist, returning it
with the kernel-argument string; `none` models the "Couldn't find
kernel" error. -/
def acquireKernel (hasFile : String → Bool)
    (kernelPaths : List (String × String)) (uri : String)
    (urlArg : Option String) : Option (String × String × String) :=
  match kernelPaths.find? (fun kp => hasFile kp.1 && hasFile kp.2) with
  | none => none
  | some kp => some (kp.1, kp.2, kernelArgsFor uri urlArg)

/-! ## Concrete instances used by the claim examples -/

/-- A catalog validity test knowing the RHEL 7 minor releases up to
`rhel7.5` only (the spec's example situation). -/
def catalogKnowsUpTo75 : String → Bool := fun v =>
  ["rhel7.0", "rhel7.1", "rhel7.2", "rhel7.3", "rhel7.4", "rhel7.5"].contains v

/-- A catalog validity test knowing only `rhel7.0`. -/
def catalogOnly70 : String → Bool := fun v => v == "rhel7.0"

/-- A fetcher view exposing a Debian-worded (and not Ubuntu-worded)
current-release manifest. -/
def debianWordedFetcher : String → Option String := fun p =>
  if p == "current/images/MANIFEST" then some "Debian GNU/Linux 10 netboot"
  else none

/-- The SUSE content file of the spec's SLES 11 SP4 example. -/
def suseExampleContent : String :=
  "LABEL SUSE Linux Enterprise Server 11 SP4\nVERSION 11.4-0"

/-- A small OS catalog in newest-first catalog order, with one Ubuntu
entry (codename style) and two Debian entries (label style). -/
def exampleDebianCatalog : List OsEntry :=
  [⟨"ubuntu19.04", some "Disco Dingo", "Ubuntu 19.04"⟩,
   ⟨"debian10", none, "Debian Buster"⟩,
   ⟨"debian9", none, "Debian Stretch"⟩]

/-- Whether a catalog entry's codename/label token occurs as a
`/token/` segment of the tree URL (the match test of the Debian URL
scan, for entries whose token derivation does not raise). -/
def entryMatchesUri (uri : String) (e : OsEntry) : Bool :=
  match debianEntryToken e with
  | .ok (some c) => strContains uri ("/" ++ c ++ "/")
  | _ => false

/-! # Theorems -/

/-! ## Helper lemmas -/

/-- A memo-table hit returns the stored value without touching state. -/
theorem acquireFileContent_hit (f : Fetcher) (st : CacheState) (p : String)
    (v : Option String) (h : lookupCache st.filecache p = some v) :
    acquireFileContent f st p = (v, st) := by
  simp [acquireFileContent, h]

/-- Once a path is memoized, any number of further queries return the
memoized value and leave the cache state unchanged. -/
theorem iterQuery_cached (f : Fetcher) (p : String) (v : Option String) :
    ∀ (n : Nat) (st : CacheState), lookupCache st.filecache p = some v →
      iterQuery f st p n = (List.replicate n v, st) := by
  intro n
  induction n with
  | zero => intro st _; simp [iterQuery]
  | succ m ih =>
    intro st h
    rw [List.replicate_succ]
    simp [iterQuery, acquireFileContent_hit f st p v h, ih st h]

/-- The pure selection loop returns the first store satisfying the
validity predicate. -/
theorem getDistroStoreLoop_pure (v : Store → Bool) :
    ∀ l : List Store,
      getDistroStoreLoop (fun s => Except.ok (v s)) l = .ok (l.find? v) := by
  intro l
  induction l with
  | nil => rfl
  | cons s t ih =>
    by_cases hv : v s
    · simp [getDistroStoreLoop, hv, List.find?]
    · simp only [Bool.not_eq_true] at hv
      simp [getDistroStoreLoop, hv, List.find?, ih]

/-- A result of the found_store fold either is the accumulator or is a
store whose urldistro equals the hint. -/
theorem findLast_fold_spec (d : String) :
    ∀ (l : List Store) (acc : Option Store) (t : Store),
      l.foldl (fun a s => if s.urldistro == some d then some s else a) acc =
        some t →
      acc = some t ∨ t.urldistro = some d := by
  intro l
  induction l with
  | nil => intro acc t h; exact Or.inl h
  | cons s tl ih =>
    intro acc t h
    simp only [List.foldl_cons] at h
    rcases ih _ t h with h2 | h2
    · by_cases hc : s.urldistro == some d
      · simp only [hc, if_pos] at h2
        right
        cases h2
        exact beq_iff_eq.mp hc
      · simp only [hc] at h2
        simp only [Bool.false_eq_true, if_false] at h2
        exact Or.inl h2
    · exact Or.inr h2

/-- A successful findLastMatch names a store carrying the hint. -/
theorem findLastMatch_urldistro (d : String) (t : Store)
    (h : findLastMatch d allstores = some t) : t.urldistro = some d := by
  rcases findLast_fold_spec d allstores none t h with h2 | h2
  · exact absurd h2 (by simp)
  · exact h2

/-- Each store with a urldistro is found by findLastMatch. -/
theorem findLastMatch_of_urldistro (s : Store) (d : String)
    (hd : s.urldistro = some d) : findLastMatch d allstores = some s := by
  cases s <;> simp [Store.urldistro] at hd <;> subst hd <;> decide

/-- A store carrying a urldistro hint is not the generic fallback. -/
theorem urldistro_ne_generic (s : Store) (d : String)
    (hd : s.urldistro = some d) : s ≠ Store.generic := by
  intro h
  subst h
  simp [Store.urldistro] at hd

/-- No registered urldistro is the empty string. -/
theorem urldistro_ne_empty (s : Store) (d : String)
    (hd : s.urldistro = some d) : (d == "") = false := by
  cases s <;> simp [Store.urldistro] at hd <;> subst hd <;> decide

/-- removeFirst yields a sublist: the surviving stores keep their
relative registration order. -/
theorem removeFirst_sublist (s : Store) :
    ∀ l : List Store, List.Sublist (removeFirst s l) l := by
  intro l
  induction l with
  | nil => simp [removeFirst]
  | cons x t ih =>
    by_cases hx : x = s
    · simp [removeFirst, hx]
    · simp only [removeFirst, hx, if_false]
      exact List.Sublist.cons₂ x ih

/-- Removing any non-generic store keeps the generic fallback last. -/
theorem removeFirst_allstores_last (s : Store) (hs : s ≠ Store.generic) :
    (removeFirst s allstores).getLast? = some Store.generic := by
  cases s
  case generic => exact absurd rfl hs
  all_goals decide

/-- getLast? is preserved by consing onto a list that has a last
element. -/
theorem getLast?_cons_some {α : Type} (x a : α) :
    ∀ l : List α, l.getLast? = some a → (x :: l).getLast? = some a := by
  intro l h
  cases l with
  | nil => simp [List.getLast?] at h
  | cons y t => rw [List.getLast?_cons_cons]; exact h

/-- Whatever the hint, the prioritized evaluation order ends with the
generic treeinfo fallback. -/
theorem prioritize_getLast (hint : Option String) :
    (prioritizeStores hint allstores).getLast? = some Store.generic := by
  cases hint with
  | none => decide
  | some d =>
    simp only [prioritizeStores]
    by_cases he : (d == "") = true
    · simp [he]; decide
    · simp only [Bool.not_eq_true] at he
      simp only [he, Bool.false_eq_true, if_false]
      cases hf : findLastMatch d allstores with
      | none => decide
      | some s =>
        have hd := findLastMatch_urldistro d s hf
        exact getLast?_cons_some s Store.generic _
          (removeFirst_allstores_last s (urldistro_ne_generic s d hd))

/-! ## C5: cache idempotence -/

/-- C5: within one session, any number (n+1) of acquire_file_content
queries for a path forward exactly one fetch to the collaborator;
every query returns the collaborator's first answer (a not-found
failure is stored and replayed as the absent value `none`, never
propagating as an error), and the state stabilizes after the first
query. -/
theorem cache_fetch_idempotent (f : Fetcher) (p : String) (n : Nat) :
    (iterQuery f emptyCache p (n + 1)).1 =
      List.replicate (n + 1) (f.acquire p)
    ∧ (iterQuery f emptyCache p (n + 1)).2 =
        ⟨[(p, f.acquire p)], [p]⟩
    ∧ ((iterQuery f emptyCache p (n + 1)).2).fetchLog.count p = 1 := by
  have h0 : acquireFileContent f emptyCache p =
      (f.acquire p, ⟨[(p, f.acquire p)], [p]⟩) := by
    simp [acquireFileContent, emptyCache, lookupCache]
  have hl : lookupCache ([(p, f.acquire p)]) p = some (f.acquire p) := by
    simp [lookupCache]
  have hrest := iterQuery_cached f p (f.acquire p) n ⟨[(p, f.acquire p)], [p]⟩ hl
  refine ⟨?_, ?_, ?_⟩
  · simp [iterQuery, h0, hrest, List.replicate]
  · simp [iterQuery, h0, hrest]
  · simp [iterQuery, h0, hrest, List.count_singleton]

/-! ## C6: Ubuntu/Debian manifest wording -/

/-- C6 counterexample: a current-release manifest with Debian wording
and no Ubuntu wording does satisfy the Ubuntu variant's validity test
(media type "url"), contradicting the claim that the Ubuntu variant
rejects such manifests. -/
theorem ubuntu_accepts_debian_manifest :
    contentRegexLines debianWordedFetcher "current/images/MANIFEST"
        lineHasDebian = true
    ∧ contentRegexLines debianWordedFetcher "current/images/MANIFEST"
        lineHasUbuntu = false
    ∧ debianIsValid "ubuntu" debianWordedFetcher = true
    ∧ debianMediaType "ubuntu" debianWordedFetcher = some "url" := by
  decide

/-- C6 amended: the Ubuntu-wording guard works in the opposite
direction. The Ubuntu variant's manifest check accepts a manifest with
Ubuntu wording or with Debian wording; it is the Debian variant's check
that returns false on any manifest with Ubuntu wording. -/
theorem check_manifest_wording (f : String → Option String) (mfile : String) :
    checkManifest "ubuntu" f mfile =
      (contentRegexLines f mfile lineHasUbuntu
        || contentRegexLines f mfile lineHasDebian)
    ∧ checkManifest "debian" f mfile =
      (!contentRegexLines f mfile lineHasUbuntu
        && contentRegexLines f mfile lineHasDebian) := by
  cases hu : contentRegexLines f mfile lineHasUbuntu <;>
    simp [checkManifest, hu]

/-! ## C4: transport miss vs malformed tree descriptor -/

/-- C4: the tree-descriptor accessor distinguishes its two failure
modes. A transport miss makes the family test return false without
error; fetched-but-malformed content (unparsable, or parsable without a
family entry) propagates as a hard error, and any such error in the
first-evaluated store's validity test aborts the whole detection call. -/
theorem treeinfo_failure_modes (parse : String → Option IniSections)
    (famtest : String → Bool) :
    treeinfoFamilyRegex parse none famtest = .ok false
    ∧ (∀ s : String, parse s = none →
        treeinfoFamilyRegex parse (some s) famtest =
          .error "treeinfo parse error")
    ∧ (∀ (s : String) (ini : IniSections), parse s = some ini →
        iniGet ini "general" "family" = none →
        treeinfoFamilyRegex parse (some s) famtest =
          .error "treeinfo missing family")
    ∧ (∀ (valid : Store → Except String Bool) (e : String),
        valid Store.fedora = .error e →
        getDistroStore none valid = .error e) := by
  refine ⟨rfl, ?_, ?_, ?_⟩
  · intro s hs
    simp [treeinfoFamilyRegex, treeinfoCompute, hs]
  · intro s ini hs hf
    simp [treeinfoFamilyRegex, treeinfoCompute, hs, hf]
  · intro valid e hv
    simp [getDistroStore, prioritizeStores, allstores, getDistroStoreLoop, hv]

/-- C4 witness: a parser that rejects everything makes the Fedora
family test error out, and a fedora-test error aborts the whole
dispatcher run. -/
theorem treeinfo_failure_modes_witness :
    treeinfoFamilyRegex (fun _ => none) (some "garbage") famregexFedora =
      .error "treeinfo parse error"
    ∧ getDistroStore none
        (fun t => if t = Store.fedora then .error "treeinfo parse error"
                  else .ok false) = .error "treeinfo parse error" := by
  refine ⟨(treeinfo_failure_modes (fun _ => none) famregexFedora).2.1 "garbage" rfl,
    (treeinfo_failure_modes (fun _ => none) famregexFedora).2.2.2 _
      "treeinfo parse error" (by simp)⟩

/-! ## C1: hint prioritization and selection order -/

/-- C1: when the hint equals a registered store's urldistro, that store
is moved to the front of the evaluation order, the remaining stores
keep their registration-relative order (sublist), the generic treeinfo
fallback stays last among them, the dispatcher returns the first store
(in that order) whose validity test passes, and the generic fallback is
last in the evaluation order for every hint. -/
theorem hint_prioritization (v : Store → Bool) (d : String) (s : Store)
    (hd : s.urldistro = some d) :
    prioritizeStores (some d) allstores = s :: removeFirst s allstores
    ∧ List.Sublist (removeFirst s allstores) allstores
    ∧ (removeFirst s allstores).getLast? = some Store.generic
    ∧ getDistroStore (some d) (fun t => Except.ok (v t)) =
        .ok ((s :: removeFirst s allstores).find? v)
    ∧ (∀ hint : Option String,
        (prioritizeStores hint allstores).getLast? = some Store.generic) := by
  have hp : prioritizeStores (some d) allstores =
      s :: removeFirst s allstores := by
    simp only [prioritizeStores, urldistro_ne_empty s d hd,
      Bool.false_eq_true, if_false, findLastMatch_of_urldistro s d hd]
  refine ⟨hp, removeFirst_sublist s allstores,
    removeFirst_allstores_last s (urldistro_ne_generic s d hd), ?_,
    prioritize_getLast⟩
  rw [getDistroStore, hp, getDistroStoreLoop_pure]

/-- C1 witness: hint "centos" puts the CentOS store first, and the
dispatcher returns the first valid store of the reordered list. -/
theorem hint_prioritization_witness :
    Store.urldistro Store.centos = some "centos"
    ∧ (prioritizeStores (some "centos") allstores =
        Store.centos :: removeFirst Store.centos allstores
      ∧ List.Sublist (removeFirst Store.centos allstores) allstores
      ∧ (removeFirst Store.centos allstores).getLast? = some Store.generic
      ∧ getDistroStore (some "centos")
          (fun t => Except.ok (t == Store.rhel)) =
          .ok ((Store.centos :: removeFirst Store.centos allstores).find?
            (fun t => t == Store.rhel))
      ∧ (∀ hint : Option String,
          (prioritizeStores hint allstores).getLast? = some Store.generic)) :=
  ⟨rfl, hint_prioritization (fun t => t == Store.rhel) "centos" Store.centos rfl⟩

/-! ## C9: registration-time duplicate urldistro check -/

/-- If a hint value is already among the seen identifiers and some
remaining store still carries it, the duplicate check errors. -/
theorem checkDups_error_of_seen :
    ∀ (l : List Store) (seen : List (Option String)) (d : String),
      some d ∈ seen → (∃ s ∈ l, s.urldistro = some d) →
      ∃ msg, checkDups l seen = .error msg := by
  intro l
  induction l with
  | nil =>
    intro seen d _ hex
    rcases hex with ⟨s, hs, _⟩
    exact absurd hs (List.not_mem_nil s)
  | cons x t ih =>
    intro seen d hseen hex
    rcases hex with ⟨s, hs, hsd⟩
    rcases List.mem_cons.mp hs with rfl | hmem
    · rw [checkDups, hsd]
      simp only [hseen, if_pos]
      exact ⟨_, rfl⟩
    · rw [checkDups]
      cases hx : x.urldistro with
      | none =>
        exact ih (seen ++ [none]) d (List.mem_append_left _ hseen) ⟨s, hmem, hsd⟩
      | some dx =>
        by_cases hin : some dx ∈ seen
        · simp only [hin, if_pos]
          exact ⟨_, rfl⟩
        · simp only [hin, if_neg, if_false]
          exact ih (seen ++ [some dx]) d (List.mem_append_left _ hseen)
            ⟨s, hmem, hsd⟩

/-- A positive filter count yields a member with the property. -/
theorem exists_mem_of_filter_pos (l : List Store) (d : String)
    (h : 1 ≤ (l.filter (fun s => s.urldistro == some d)).length) :
    ∃ s ∈ l, s.urldistro = some d := by
  cases hf : l.filter (fun s => s.urldistro == some d) with
  | nil => rw [hf] at h; simp at h
  | cons a t =>
    have ha : a ∈ l.filter (fun s => s.urldistro == some d) := by
      rw [hf]; exact List.mem_cons_self a t
    have := List.mem_filter.mp ha
    exact ⟨a, this.1, beq_iff_eq.mp this.2⟩

/-- Two stores sharing a non-absent urldistro make the duplicate check
fail, whatever has been seen so far. -/
theorem checkDups_error_of_dup :
    ∀ (l : List Store) (seen : List (Option String)) (d : String),
      2 ≤ (l.filter (fun s => s.urldistro == some d)).length →
      ∃ msg, checkDups l seen = .error msg := by
  intro l
  induction l with
  | nil => intro seen d h; simp at h
  | cons x t ih =>
    intro seen d h
    rw [checkDups]
    cases hx : x.urldistro with
    | none =>
      have hcnt : 2 ≤ (t.filter (fun s => s.urldistro == some d)).length := by
        have : (x.urldistro == some d) = false := by simp [hx]
        simpa [List.filter_cons, this] using h
      exact ih (seen ++ [none]) d hcnt
    | some dx =>
      by_cases hin : some dx ∈ seen
      · simp only [hin, if_pos]
        exact ⟨_, rfl⟩
      · simp only [hin, if_neg, if_false]
        by_cases hdx : dx = d
        · subst hdx
          have hcnt : 1 ≤ (t.filter (fun s => s.urldistro == some dx)).length := by
            have htrue : (x.urldistro == some dx) = true := by simp [hx]
            simp only [List.filter_cons, htrue, if_true, List.length_cons] at h
            omega
          exact checkDups_error_of_seen t (seen ++ [some dx]) dx
            (List.mem_append_right _ (List.mem_singleton.mpr rfl))
            (exists_mem_of_filter_pos t dx hcnt)
        · have hcnt : 2 ≤ (t.filter (fun s => s.urldistro == some d)).length := by
            have : (x.urldistro == some d) = false := by
              simp [hx]
              intro hc
              exact absurd hc hdx
            simpa [List.filter_cons, this] using h
          exact ih (seen ++ [some dx]) d hcnt

/-- C9: registration fails whenever two registered stores share a
non-absent urldistro; the actual registration list has pairwise
distinct non-absent ids, builds successfully, and places the generic
treeinfo fallback last. -/
theorem registration_duplicate_check :
    (∀ (l : List Store) (d : String),
      2 ≤ (l.filter (fun s => s.urldistro == some d)).length →
      ∃ msg, buildDistroList l = .error msg)
    ∧ buildDistroList registrationOrder = .ok allstores
    ∧ allstores.getLast? = some Store.generic := by
  refine ⟨?_, by decide, by decide⟩
  intro l d h
  rcases checkDups_error_of_dup l [] d h with ⟨msg, hmsg⟩
  exact ⟨msg, by rw [buildDistroList, hmsg]⟩

/-- C9 witness: a registration list with two stores carrying
urldistro "fedora" is rejected at build time. -/
theorem registration_duplicate_check_witness :
    ∃ msg, buildDistroList [Store.fedora, Store.fedora, Store.generic] =
      .error msg :=
  registration_duplicate_check.1 [Store.fedora, Store.fedora, Store.generic]
    "fedora" (by decide)

/-! ## C10: kernel URL argument construction -/

/-- Every kernel URL argument a store defines is non-empty. -/
theorem getKernelUrlArg_truthy (s : Store) (vn : Option Int) (arg : String)
    (h : getKernelUrlArg s vn = some arg) : (arg == "") = false := by
  cases s <;> simp only [getKernelUrlArg, Option.some.injEq] at h <;>
    first
      | (exact absurd h (by simp))
      | (cases hb : isOldRhdistro (Store.urldistro _) vn <;>
          rw [hb] at h <;> simp at h <;> subst h <;> decide)
      | (subst h; decide)

/-- C10: for every selected variant, the kernel-argument string built
by acquireKernel is empty when the tree location is a local path
(starts with "/") or the variant defines no installer kernel-argument
name, and is exactly "argname=location" otherwise. -/
theorem acquire_kernel_args (s : Store) (vn : Option Int) (uri : String)
    (hasFile : String → Bool) (kernelPaths : List (String × String))
    (k i a : String)
    (h : acquireKernel hasFile kernelPaths uri (getKernelUrlArg s vn) =
      some (k, i, a)) :
    (strStartsWith uri "/" = true ∨ getKernelUrlArg s vn = none → a = "")
    ∧ (∀ arg, strStartsWith uri "/" = false →
        getKernelUrlArg s vn = some arg → a = arg ++ "=" ++ uri) := by
  have ha : a = kernelArgsFor uri (getKernelUrlArg s vn) := by
    rw [acquireKernel] at h
    cases hf : kernelPaths.find? (fun kp => hasFile kp.1 && hasFile kp.2) with
    | none => rw [hf] at h; exact absurd h (by simp)
    | some kp =>
      rw [hf] at h
      simp only [Option.some.injEq, Prod.mk.injEq] at h
      exact h.2.2.symm
  subst ha
  constructor
  · rintro (hl | hn)
    · simp [kernelArgsFor, hl]
    · simp [kernelArgsFor, hn, truthyStr]
  · intro arg hl harg
    have htr := getKernelUrlArg_truthy s vn arg harg
    have ht : truthyStr (some arg) = true := by simp [truthyStr, htr]
    simp [kernelArgsFor, hl, harg, ht]

/-- C10 witness: a SUSE store with a remote URI gets
"install=location"; the same store with a local path gets no argument. -/
theorem acquire_kernel_args_witness :
    acquireKernel (fun _ => true) [("bk", "bi")] "http://host/tree"
        (getKernelUrlArg Store.suse none) = some ("bk", "bi", "install=http://host/tree")
    ∧ ("install=http://host/tree" : String) = "install" ++ "=" ++ "http://host/tree"
    ∧ acquireKernel (fun _ => true) [("bk", "bi")] "/var/tree"
        (getKernelUrlArg Store.suse none) = some ("bk", "bi", "")
    ∧ ("" : String) = "" :=
  ⟨by decide,
   (acquire_kernel_args Store.suse none "http://host/tree" (fun _ => true)
      [("bk", "bi")] "bk" "bi" "install=http://host/tree" (by decide)).2
      "install" (by decide) (by decide),
   by decide,
   (acquire_kernel_args Store.suse none "/var/tree" (fun _ => true)
      [("bk", "bi")] "bk" "bi" "" (by decide)).1 (Or.inl (by decide))⟩

/-! ## C3: Fedora version inference -/

/-- C3: Fedora resolution. A missing version or one of
development/rawhide/Rawhide resolves to the catalog's latest Fedora
identifier; a non-integer version falls back to the latest identifier;
an integer version above the latest known clamps to the latest
identifier; an integer version at most the latest resolves to
fedora(N); and version "21" resolves to "fedora21" under a catalog
whose latest is fedora28. -/
theorem fedora_version_resolution (latestN : Nat) (verstr : Option String) :
    ((verstr = none ∨ verstr = some "" ∨ verstr = some "development"
        ∨ verstr = some "rawhide" ∨ verstr = some "Rawhide") →
      (parseFedoraVersion latestN verstr).2 = "fedora" ++ toString latestN)
    ∧ (∀ s, verstr = some s → pyIsdigit s = false →
        (parseFedoraVersion latestN verstr).2 = "fedora" ++ toString latestN)
    ∧ (∀ s, verstr = some s → pyIsdigit s = true →
        latestN < parseNatDigits s →
        (parseFedoraVersion latestN verstr).2 = "fedora" ++ toString latestN)
    ∧ (∀ s, verstr = some s → pyIsdigit s = true →
        parseNatDigits s ≤ latestN →
        (parseFedoraVersion latestN verstr).2 =
          "fedora" ++ toString (parseNatDigits s))
    ∧ (famregexFedora "Fedora" = true
        ∧ parseFedoraVersion 28 (some "21") = (21, "fedora21")) := by
  refine ⟨?_, ?_, ?_, ?_, by decide, by decide⟩
  · rintro (rfl | rfl | rfl | rfl | rfl) <;> simp [parseFedoraVersion]
  · rintro s rfl hdig
    by_cases h0 : s = ""
    · subst h0; simp [parseFedoraVersion]
    by_cases h1 : s = "development"
    · subst h1; simp [parseFedoraVersion]
    by_cases h2 : s = "rawhide"
    · subst h2; simp [parseFedoraVersion]
    by_cases h3 : s = "Rawhide"
    · subst h3; simp [parseFedoraVersion]
    · simp [parseFedoraVersion, h0, h1, h2, h3, hdig]
  · rintro s rfl hdig hlt
    have h0 : s ≠ "" := fun h => by subst h; exact absurd hdig (by decide)
    have h1 : s ≠ "development" := fun h => by
      subst h; exact absurd hdig (by decide)
    have h2 : s ≠ "rawhide" := fun h => by subst h; exact absurd hdig (by decide)
    have h3 : s ≠ "Rawhide" := fun h => by subst h; exact absurd hdig (by decide)
    simp [parseFedoraVersion, h0, h1, h2, h3, hdig, hlt]
  · rintro s rfl hdig hle
    have h0 : s ≠ "" := fun h => by subst h; exact absurd hdig (by decide)
    have h1 : s ≠ "development" := fun h => by
      subst h; exact absurd hdig (by decide)
    have h2 : s ≠ "rawhide" := fun h => by subst h; exact absurd hdig (by decide)
    have h3 : s ≠ "Rawhide" := fun h => by subst h; exact absurd hdig (by decide)
    simp [parseFedoraVersion, h0, h1, h2, h3, hdig, Nat.not_lt.mpr hle]

/-- C3 witness: version "21" under latest fedora30 resolves to
fedora21. -/
theorem fedora_version_resolution_witness :
    (parseFedoraVersion 30 (some "21")).2 =
      "fedora" ++ toString (parseNatDigits "21") :=
  (fedora_version_resolution 30 (some "21")).2.2.2.1 "21" rfl (by decide)
    (by decide)

/-! ## C2: RHEL/CentOS version inference -/

/-- splitFirstAux at the unique separator occurrence. -/
theorem splitFirstAux_at_sep (c : Char) (b : List Char) :
    ∀ a : List Char, c ∉ a → splitFirstAux c (a ++ c :: b) = (a, some b) := by
  intro a
  induction a with
  | nil => intro _; simp [splitFirstAux]
  | cons x t ih =>
    intro hna
    have hx : (x == c) = false := by
      simp only [beq_eq_false_iff_ne]
      intro hc
      exact hna (hc ▸ List.mem_cons_self x t)
    have ht : c ∉ t := fun hc => hna (List.mem_cons_of_mem x hc)
    simp [splitFirstAux, hx, ih ht]

/-- The version split on a string with exactly one dot takes the parts
before and after the dot. -/
theorem splitRhelVersion_one_dot (a b : List Char)
    (ha : '.' ∉ a) (hb : '.' ∉ b) :
    splitRhelVersion ⟨a ++ '.' :: b⟩ = (safeint ⟨a⟩, safeint ⟨b⟩) := by
  have hcount : (a ++ '.' :: b).count '.' = 1 := by
    rw [List.count_append, List.count_cons_self]
    rw [List.count_eq_zero.mpr ha, List.count_eq_zero.mpr hb]
  have hsplit := splitFirstAux_at_sep '.' b a ha
  simp [splitRhelVersion, hcount, hsplit]

/-- The version split treats any other dot count as a whole-string
parse with update 0. -/
theorem splitRhelVersion_other (vs : String)
    (h : vs.data.count '.' ≠ 1) :
    splitRhelVersion vs = (safeint vs, 0) := by
  have : (vs.data.count '.' == 1) = false := by
    simp only [beq_eq_false_iff_ne]
    exact h
  simp [splitRhelVersion, this]

/-- The backward walk returns exactly the largest valid minor at most
the starting update. -/
theorem rhelWalk_some_iff (catalog : String → Bool) (base : String) :
    ∀ (u : Nat) (s : String),
      rhelWalk catalog base u = some s ↔
        ∃ k, k ≤ u ∧ s = base ++ "." ++ toString k ∧ catalog s = true
          ∧ ∀ j, j ≤ u → k < j →
              catalog (base ++ "." ++ toString j) = false := by
  intro u
  induction u with
  | zero =>
    intro s
    constructor
    · intro h
      by_cases hc : catalog (base ++ "." ++ toString (0 : Nat)) = true
      · simp only [rhelWalk, hc, if_true, Option.some.injEq] at h
        exact ⟨0, Nat.le_refl 0, h.symm, h ▸ hc, fun j hj hlt => by omega⟩
      · simp only [Bool.not_eq_true] at hc
        simp [rhelWalk, hc] at h
    · rintro ⟨k, hk, rfl, hcat, _⟩
      have hk0 : k = 0 := Nat.le_zero.mp hk
      subst hk0
      simp [rhelWalk, hcat]
  | succ m ih =>
    intro s
    by_cases hc : catalog (base ++ "." ++ toString (m + 1)) = true
    · simp only [rhelWalk, hc, if_true]
      constructor
      · intro h
        cases h
        exact ⟨m + 1, Nat.le_refl _, rfl, hc, fun j hj hlt => by omega⟩
      · rintro ⟨k, hk, rfl, hcat, hmax⟩
        rcases Nat.lt_or_ge k (m + 1) with hlt | hge
        · have := hmax (m + 1) (Nat.le_refl _) hlt
          rw [this] at hc
          exact absurd hc (by simp)
        · have hkm : k = m + 1 := Nat.le_antisymm hk hge
          subst hkm
          rfl
    · simp only [Bool.not_eq_true] at hc
      simp only [rhelWalk, hc, Bool.false_eq_true, if_false]
      rw [ih s]
      constructor
      · rintro ⟨k, hk, rfl, hcat, hmax⟩
        refine ⟨k, Nat.le_succ_of_le hk, rfl, hcat, ?_⟩
        intro j hj hlt
        rcases Nat.lt_or_ge j (m + 1) with hjlt | hjge
        · exact hmax j (by omega) hlt
        · have : j = m + 1 := by omega
          subst this
          exact hc
      · rintro ⟨k, hk, rfl, hcat, hmax⟩
        have hkm : k ≠ m + 1 := by
          intro hkm
          subst hkm
          rw [hcat] at hc
          exact absurd hc (by simp)
        refine ⟨k, by omega, rfl, hcat, ?_⟩
        intro j hj hlt
        exact hmax j (by omega) hlt

/-- The backward walk fails exactly when no minor at most the starting
update validates. -/
theorem rhelWalk_none_iff (catalog : String → Bool) (base : String) :
    ∀ u : Nat,
      rhelWalk catalog base u = none ↔
        ∀ k, k ≤ u → catalog (base ++ "." ++ toString k) = false := by
  intro u
  induction u with
  | zero =>
    constructor
    · intro h k hk
      have hk0 : k = 0 := Nat.le_zero.mp hk
      subst hk0
      by_cases hc : catalog (base ++ "." ++ toString (0 : Nat)) = true
      · simp [rhelWalk, hc] at h
      · simpa using hc
    · intro h
      simp [rhelWalk, h 0 (Nat.le_refl 0)]
  | succ m ih =>
    by_cases hc : catalog (base ++ "." ++ toString (m + 1)) = true
    · simp only [rhelWalk, hc, if_true]
      constructor
      · intro h; exact absurd h (by simp)
      · intro h
        have := h (m + 1) (Nat.le_refl _)
        rw [hc] at this
        exact absurd this (by simp)
    · simp only [Bool.not_eq_true] at hc
      simp only [rhelWalk, hc, Bool.false_eq_true, if_false]
      rw [ih]
      constructor
      · intro h k hk
        rcases Nat.lt_or_ge k (m + 1) with hlt | hge
        · exact h k (by omega)
        · have : k = m + 1 := by omega
          subst this
          exact hc
      · intro h k hk
        exact h k (by omega)

/-- C2 counterexample: the claim's "split on the first dot" rule fails
on a version string with two dots. The code parses "7.4.1" as major 0,
update 0 and resolves nothing against a catalog knowing rhel7.0, while
the claimed first-dot split (major 7, minor int("4.1") -> 0) would
resolve rhel7.0. -/
theorem rhel_split_counterexample :
    splitRhelVersion "7.4.1" = (0, 0)
    ∧ specSplitRhelVersion "7.4.1" = (7, 0)
    ∧ detectVersionRhel catalogOnly70 "rhel" (some "7.4.1") = none
    ∧ specDetectVersionRhel catalogOnly70 "rhel" (some "7.4.1") =
        some "rhel7.0" := by
  decide

/-- C2 amended: the version string is split at the dot only when it
contains exactly one dot (otherwise the whole string is parsed as the
major version, non-numeric defaulting to 0, with update 0); from
(prefix)(major).(update) the update is decremented while nonnegative
until a catalog-valid identifier is found, which becomes the resolved
os_variant, and the result is absent when no nonnegative update
validates. Version "7.6" against a catalog knowing only up to rhel7.5
resolves to rhel7.5, and to absent when the catalog knows no such
minor. -/
theorem rhel_version_resolution (catalog : String → Bool)
    (variantPre : String) :
    (∀ (a b : List Char), '.' ∉ a → '.' ∉ b →
      splitRhelVersion ⟨a ++ '.' :: b⟩ = (safeint ⟨a⟩, safeint ⟨b⟩))
    ∧ (∀ vs : String, vs.data.count '.' ≠ 1 →
        splitRhelVersion vs = (safeint vs, 0))
    ∧ (∀ vs : String, vs ≠ "" → 0 ≤ (splitRhelVersion vs).2 →
        detectVersionRhel catalog variantPre (some vs) =
          rhelWalk catalog (variantPre ++ toString (splitRhelVersion vs).1)
            (splitRhelVersion vs).2.toNat)
    ∧ (∀ vs : String, vs ≠ "" → (splitRhelVersion vs).2 < 0 →
        detectVersionRhel catalog variantPre (some vs) = none)
    ∧ (∀ (u : Nat) (base s : String),
        (rhelWalk catalog base u = some s ↔
          ∃ k, k ≤ u ∧ s = base ++ "." ++ toString k ∧ catalog s = true
            ∧ ∀ j, j ≤ u → k < j →
                catalog (base ++ "." ++ toString j) = false)
        ∧ (rhelWalk catalog base u = none ↔
            ∀ k, k ≤ u → catalog (base ++ "." ++ toString k) = false))
    ∧ (detectVersionRhel catalogKnowsUpTo75 "rhel" (some "7.6") =
        some "rhel7.5"
      ∧ detectVersionRhel (fun _ => false) "rhel" (some "7.6") = none) := by
  refine ⟨splitRhelVersion_one_dot, splitRhelVersion_other, ?_, ?_,
    fun u base s => ⟨rhelWalk_some_iff catalog base u s,
      rhelWalk_none_iff catalog base u⟩,
    by decide, by decide⟩
  · intro vs hne hnn
    have hvs : (vs == "") = false := by
      simp only [beq_eq_false_iff_ne]
      exact hne
    have : ((splitRhelVersion vs).2 < 0) = False := by
      simp only [eq_iff_iff, iff_false, Int.not_lt]
      exact hnn
    simp [detectVersionRhel, hvs, this]
  · intro vs hne hlt
    have hvs : (vs == "") = false := by
      simp only [beq_eq_false_iff_ne]
      exact hne
    simp [detectVersionRhel, hvs, hlt]

/-- C2 witness: version "7.6" against a catalog knowing minors up to
rhel7.5 goes through the backward walk from update 6. -/
theorem rhel_version_resolution_witness :
    detectVersionRhel catalogKnowsUpTo75 "rhel" (some "7.6") =
      rhelWalk catalogKnowsUpTo75
        ("rhel" ++ toString (splitRhelVersion "7.6").1)
        (splitRhelVersion "7.6").2.toNat :=
  (rhel_version_resolution catalogKnowsUpTo75 "rhel").2.2.1 "7.6"
    (by decide) (by decide)

/-! ## C7: SUSE Enterprise/SLES version re-derivation -/

/-- C7: for a successfully parsed manifest whose product name contains
"Enterprise" or "SLES", the product version is the 5th space-delimited
token of the product name, with "." plus the 3rd character of the 6th
token appended when a 6th token exists; the SLES 11 SP4 example
manifest derives product version "11.4" and, through version
inference, os_variant "sles11sp4". -/
theorem suse_sle_product_version (cd : ContentDict) (pn dv : String)
    (hname : getProductName cd = some pn)
    (hpn : (pn == "") = false)
    (hsle : (strContains pn "Enterprise" || strContains pn "SLES") = true)
    (hpre : getProductVersionPre cd = .ok dv) :
    (∀ t5, (splitChars ' ' (trimChars pn.data)).get? 4 = some t5 →
      ((splitChars ' ' (trimChars pn.data)).length ≤ 5 →
        getProductVersion cd = .ok (some ⟨t5⟩))
      ∧ (∀ t6 c, (splitChars ' ' (trimChars pn.data)).get? 5 = some t6 →
          t6.get? 2 = some c →
          getProductVersion cd =
            .ok (some (String.mk t5 ++ "." ++ String.singleton c))))
    ∧ (suseContentBuild suseExampleContent =
        .ok ⟨none, some "SUSE Linux Enterprise Server 11 SP4", some "11.4"⟩
      ∧ variantFromVersion "sles" (some "11.4") = .ok (some "sles11sp4")) := by
  refine ⟨?_, by decide, by decide⟩
  intro t5 ht5
  have ht5g : (splitChars ' ' (trimChars pn.data))[4]? = some t5 := by
    rw [← List.get?_eq_getElem?]
    exact ht5
  constructor
  · intro hlen
    simp [getProductVersion, hname, hpn, hpre, hsle, ht5g, Nat.not_lt.mpr hlen]
  · intro t6 c ht6 hc
    have hlen : 5 < (splitChars ' ' (trimChars pn.data)).length := by
      rcases List.get?_eq_some.mp ht6 with ⟨h, _⟩
      exact h
    have ht6g : (splitChars ' ' (trimChars pn.data))[5]? = some t6 := by
      rw [← List.get?_eq_getElem?]
      exact ht6
    have ht6e : (splitChars ' ' (trimChars pn.data))[5] = t6 :=
      Option.some.inj ((List.getElem?_eq_getElem hlen).symm.trans ht6g)
    have hcg : t6[2]? = some c := by
      rw [← List.get?_eq_getElem?]
      exact hc
    simp [getProductVersion, hname, hpn, hpre, hsle, ht5g, hlen, ht6e, hcg]

/-- C7 witness: the example manifest's dict satisfies the general
token rule at tokens "11" and "SP4". -/
theorem suse_sle_product_version_witness :
    getProductVersion (buildContentDict suseExampleContent) =
      .ok (some (String.mk ['1', '1'] ++ "." ++ String.singleton '4')) :=
  ((suse_sle_product_version (buildContentDict suseExampleContent)
      "SUSE Linux Enterprise Server 11 SP4" "11.4" (by decide) (by decide)
      (by decide) (by decide)).1 ['1', '1'] (by decide)).2 ['S', 'P', '4'] '4'
    (by decide) (by decide)

/-! ## C8: Debian osdict resolution from media type and URL -/

/-- The URL scan over well-formed catalog entries is the first
entry whose token occurs as a /token/ URL segment. -/
theorem debianScanOses_wellformed (uri : String) :
    ∀ l : List OsEntry,
      (∀ e ∈ l, ∃ t, debianEntryToken e = .ok t) →
      debianScanOses uri l =
        .ok ((l.find? (entryMatchesUri uri)).map OsEntry.name) := by
  intro l
  induction l with
  | nil => intro _; simp [debianScanOses]
  | cons e rest ih =>
    intro h
    rcases h e (List.mem_cons_self e rest) with ⟨t, ht⟩
    have hrest : ∀ x ∈ rest, ∃ t, debianEntryToken x = .ok t :=
      fun x hx => h x (List.mem_cons_of_mem e hx)
    cases t with
    | none =>
      have hm : entryMatchesUri uri e = false := by
        simp [entryMatchesUri, ht]
      simp [debianScanOses, ht, List.find?_cons, hm, ih hrest]
    | some c =>
      by_cases hu : strContains uri ("/" ++ c ++ "/") = true
      · have hm : entryMatchesUri uri e = true := by
          simp [entryMatchesUri, ht, hu]
        simp [debianScanOses, ht, hu, List.find?_cons, hm]
      · simp only [Bool.not_eq_true] at hu
        have hm : entryMatchesUri uri e = false := by
          simp [entryMatchesUri, ht, hu]
        simp [debianScanOses, ht, hu, List.find?_cons, hm, ih hrest]

/-- C8: "daily" media always resolves to the first catalog entry whose
identifier starts with the family name, independently of the tree URL;
"url" media scans the same entries in catalog order for a codename or
label token occurring as a /token/ URL segment, absent when none
matches; and the media-to-prefix plumbing of the constructor. -/
theorem debian_osdict_resolution (debname : String) (catalog : List OsEntry)
    (uri : String) :
    (∀ e rest, debianFilteredOses debname catalog = e :: rest →
      detectDebianOsdictFromUrl debname catalog uri "daily" = .ok (some e.name)
      ∧ ∀ uri2 : String,
          detectDebianOsdictFromUrl debname catalog uri2 "daily" =
            detectDebianOsdictFromUrl debname catalog uri "daily")
    ∧ ((∀ e ∈ debianFilteredOses debname catalog,
          ∃ t, debianEntryToken e = .ok t) →
        detectDebianOsdictFromUrl debname catalog uri "current/images" =
          .ok (((debianFilteredOses debname catalog).find?
            (entryMatchesUri uri)).map OsEntry.name))
    ∧ (debianInitOsVariant debname catalog uri "daily" =
        detectDebianOsdictFromUrl debname catalog uri "daily"
      ∧ debianInitOsVariant debname catalog uri "url" =
        detectDebianOsdictFromUrl debname catalog uri "current/images") := by
  refine ⟨?_, ?_, by simp [debianInitOsVariant], by simp [debianInitOsVariant]⟩
  · intro e rest hf
    constructor
    · simp [detectDebianOsdictFromUrl, hf]
    · intro uri2
      simp [detectDebianOsdictFromUrl, hf]
  · intro h
    have : ("current/images" == "daily") = false := by decide
    simp only [detectDebianOsdictFromUrl, this, Bool.false_eq_true, if_false]
    exact debianScanOses_wellformed uri (debianFilteredOses debname catalog) h

/-- C8 witness: on the example catalog, "daily" media resolves to the
first (most recent) Debian entry whatever the URL, and "url" media
finds debian9 through the /stretch/ URL segment. -/
theorem debian_osdict_resolution_witness :
    detectDebianOsdictFromUrl "debian" exampleDebianCatalog
        "http://host/debian/dists/stretch/main" "current/images" =
      .ok (some "debian9")
    ∧ detectDebianOsdictFromUrl "debian" exampleDebianCatalog
        "http://other" "daily" = .ok (some "debian10") := by
  constructor
  · have hwf : ∀ e ∈ debianFilteredOses "debian" exampleDebianCatalog,
        ∃ t, debianEntryToken e = .ok t := by
      intro e he
      rw [show debianFilteredOses "debian" exampleDebianCatalog =
        [⟨"debian10", none, "Debian Buster"⟩,
         ⟨"debian9", none, "Debian Stretch"⟩] from by decide] at he
      rcases List.mem_cons.mp he with rfl | he2
      · exact ⟨some "buster", by decide⟩
      rcases List.mem_cons.mp he2 with rfl | he3
      · exact ⟨some "stretch", by decide⟩
      · exact absurd he3 (List.not_mem_nil e)
    have h := (debian_osdict_resolution "debian" exampleDebianCatalog
      "http://host/debian/dists/stretch/main").2.1 hwf
    rw [h]
    decide
  · exact ((debian_osdict_resolution "debian" exampleDebianCatalog
      "http://other").1 ⟨"debian10", none, "Debian Buster"⟩
      [⟨"debian9", none, "Debian Stretch"⟩] (by decide)).1
